import Mathlib

/-!
Verification of the masterblog-api backend (backend_app.py).

The development shallowly embeds the Flask handlers of
src/masterblog-api/backend/backend_app.py as pure Lean functions.
The global POSTS list becomes an explicit argument and result: every
handler takes the current store and returns the pair of its response
and the store as the handler leaves it.  JSON payload values are
modelled by JVal (null, string, integer, boolean), since the Python
handlers accept arbitrary JSON values in request bodies.  Python
dates (datetime.date) become the Date structure below.  An unhandled
Python exception (for example a TypeError raised by strptime on a
non-string argument, or by the membership test on None) is modelled
by a dedicated crash constructor of the response type.
-/

/-- A calendar date, the embedding of datetime.date: a year, month and
day stored as natural numbers. -/
structure Date where
  year : Nat
  month : Nat
  day : Nat
deriving DecidableEq, Repr

/-- A JSON value as it can appear in a request body.  Only the shapes
the handlers can receive matter: null, strings, integers, booleans. -/
inductive JVal where
  | jnull : JVal
  | jstr : String → JVal
  | jnum : Int → JVal
  | jbool : Bool → JVal
deriving DecidableEq, Repr

/-- Python truthiness of a JSON value: None, the empty string, zero and
False are falsy, everything else is truthy. -/
def JVal.truthy : JVal → Bool
  | .jnull => false
  | .jstr s => !s.isEmpty
  | .jnum n => n != 0
  | .jbool b => b

/-- True exactly when the value is a JSON string. -/
def JVal.isStr : JVal → Bool
  | .jstr _ => true
  | _ => false

/-- The underlying string of a JSON string value (defaulting to the
empty string elsewhere; every use is guarded by isStr). -/
def JVal.asStr : JVal → String
  | .jstr s => s
  | _ => ""

/-- A stored post, the embedding of the post dicts in POSTS.  The date
field always holds a parsed calendar date, exactly as in the source,
where POSTS stores datetime.date objects and every write to the date
key goes through parse_date_string.  The three text fields hold JSON
values because update_post writes the raw payload value into them. -/
structure Post where
  id : Nat
  title : JVal
  content : JVal
  author : JVal
  date : Date
deriving DecidableEq, Repr

/-- A request body for add_post and update_post: the four recognised
keys, each absent or bound to a JSON value, plus a flag recording
whether the dict carries any further keys (which only influences the
truthiness test of the dict in add_post). -/
structure Payload where
  title : Option JVal := none
  content : Option JVal := none
  author : Option JVal := none
  date : Option JVal := none
  extra : Bool := false
deriving DecidableEq, Repr

/-- Python truthiness of the payload dict: falsy exactly when it has no
keys at all. -/
def Payload.isEmptyDict (d : Payload) : Bool :=
  d.title.isNone && d.content.isNone && d.author.isNone && d.date.isNone && !d.extra

/-- Python truthiness of data.get(key): absent keys yield None, which is
falsy. -/
def getTruthy : Option JVal → Bool
  | none => false
  | some v => v.truthy

/-- digitsOnly cs is true when cs is non-empty and consists of ASCII
digits only, the shape accepted by a run of the strptime digit
patterns. -/
def digitsOnly (cs : List Char) : Bool :=
  !cs.isEmpty && cs.all Char.isDigit

/-- Numeric value of a digit string, as int() computes it. -/
def natOfDigits (cs : List Char) : Nat :=
  cs.foldl (fun n c => n * 10 + (c.toNat - 48)) 0

/-- Splits a character list at every dash, the behaviour of splitting
a string on the separator "-": the empty string yields one empty
part, and each dash opens a new part. -/
def splitDash : List Char → List (List Char)
  | [] => [[]]
  | c :: cs =>
    if c == '-' then [] :: splitDash cs
    else
      match splitDash cs with
      | [] => [[c]]
      | h :: t => (c :: h) :: t

/-- Length of a month, embedding the day validation performed by the
datetime.date constructor, including the Gregorian leap-year rule. -/
def daysInMonth (y m : Nat) : Nat :=
  if m == 2 then
    if (y % 4 == 0 && y % 100 != 0) || y % 400 == 0 then 29 else 28
  else if m == 4 || m == 6 || m == 9 || m == 11 then 30
  else 31

/-- Embedding of parse_date_string: strptime with format %Y-%m-%d
accepts exactly a four-digit year, a one- or two-digit month in 1..12
and a one- or two-digit day, the whole string consumed, and the
datetime.date constructor then requires a positive year and a day
that exists in the month; on any failure the helper returns None. -/
def parse_date_string (s : String) : Option Date :=
  match splitDash s.data with
  | [ys, ms, ds] =>
    if ys.length == 4 && digitsOnly ys
        && ds.length ≤ 2 && digitsOnly ds
        && ms.length ≤ 2 && digitsOnly ms then
      let y := natOfDigits ys
      let m := natOfDigits ms
      let d := natOfDigits ds
      if 1 ≤ y && 1 ≤ m && m ≤ 12 && 1 ≤ d && d ≤ daysInMonth y m then
        some ⟨y, m, d⟩
      else none
    else none
  | _ => none

/-- Left-pads the decimal representation of n with zeros to width w. -/
def padZ (w : Nat) (n : Nat) : String :=
  let s := toString n
  String.mk (List.replicate (w - s.length) (Char.ofNat 48)) ++ s

/-- Embedding of date.strftime with format %Y-%m-%d as used by
serialize_post and search_posts: zero-padded year, month and day
joined by dashes. -/
def formatDate (d : Date) : String :=
  padZ 4 d.year ++ "-" ++ padZ 2 d.month ++ "-" ++ padZ 2 d.day

/-- Character-wise lowercasing, the embedding of str.lower as used by
search_posts. -/
def pyLower (s : String) : String :=
  String.mk (s.data.map Char.toLower)

/-- startsWithChars h n is true when n is an initial run of h. -/
def startsWithChars : List Char → List Char → Bool
  | _, [] => true
  | [], _ :: _ => false
  | c :: cs, d :: ds => c == d && startsWithChars cs ds

/-- containsChars h n is true when n occurs contiguously inside h, the
semantics of the Python membership test on strings. -/
def containsChars : List Char → List Char → Bool
  | [], n => n.isEmpty
  | c :: cs, n => startsWithChars (c :: cs) n || containsChars cs n

/-- subStr needle hay embeds the Python expression needle in hay. -/
def subStr (needle hay : String) : Bool :=
  containsChars hay.data needle.data

/-- Lexicographic code-point comparison of character lists, the order
Python uses on str values. -/
def charsLe : List Char → List Char → Bool
  | [], _ => true
  | _ :: _, [] => false
  | c :: cs, d :: ds =>
    c.toNat < d.toNat || (c.toNat == d.toNat && charsLe cs ds)

/-- Boolean comparison of strings in the lexicographic code-point
order. -/
def strLe (a b : String) : Bool :=
  charsLe a.data b.data

/-- Boolean chronological comparison of dates: lexicographic on year,
month, day, which is how datetime.date objects compare. -/
def dateLe (a b : Date) : Bool :=
  decide (a.year < b.year ∨ (a.year = b.year ∧
    (a.month < b.month ∨ (a.month = b.month ∧ a.day ≤ b.day))))

/-- The seed store, the embedding of the hardcoded POSTS list. -/
def initialPosts : List Post :=
  [⟨1, .jstr "First Post", .jstr "This is the first post.", .jstr "John Doe", ⟨2023, 6, 7⟩⟩,
   ⟨2, .jstr "Second Post", .jstr "This is the second post.", .jstr "Jane Smith", ⟨2023, 6, 8⟩⟩,
   ⟨3, .jstr "Third Post", .jstr "Another interesting post content.", .jstr "John Doe", ⟨2023, 6, 9⟩⟩,
   ⟨4, .jstr "Fourth Post", .jstr "Yet another piece of content for a blog.", .jstr "Alice Brown", ⟨2023, 6, 10⟩⟩,
   ⟨5, .jstr "Fifth Post", .jstr "Concluding thoughts on a topic.", .jstr "Jane Smith", ⟨2023, 6, 11⟩⟩]

/-- Embedding of get_next_id: 1 on the empty store, otherwise the
maximum stored id plus one (ids are naturals, so folding max from 0
computes the same maximum the Python max builtin returns). -/
def get_next_id (posts : List Post) : Nat :=
  match posts with
  | [] => 1
  | _ => (posts.map Post.id).foldl Nat.max 0 + 1

/-- The list of required keys reported missing by add_post, in the
order the source builds it. -/
def missingOf (d : Payload) : List String :=
  (if !getTruthy d.title then ["title"] else [])
    ++ (if !getTruthy d.content then ["content"] else [])
    ++ (if !getTruthy d.author then ["author"] else [])
    ++ (if !getTruthy d.date then ["date"] else [])

/-- Response of the add_post handler.  errBodyJson is the generic
Request-body-must-be-JSON 400, errMissing carries the listed missing
fields, errBadDate the invalid-date 400, and crash stands for the
unhandled TypeError strptime raises on a non-string argument. -/
inductive AddResp where
  | created : Post → AddResp
  | errBodyJson : AddResp
  | errMissing : List String → AddResp
  | errBadDate : AddResp
  | crash : AddResp
deriving DecidableEq, Repr

/-- Embedding of add_post.  The handler rejects a missing or falsy
body, collects the falsy required keys, validates the date and only
then appends the new post built with get_next_id. -/
def add_post (posts : List Post) (data : Option Payload) : AddResp × List Post :=
  match data with
  | none => (.errBodyJson, posts)
  | some d =>
    if d.isEmptyDict then (.errBodyJson, posts)
    else if !(missingOf d).isEmpty then (.errMissing (missingOf d), posts)
    else
      match d.date with
      | some (.jstr s) =>
        match parse_date_string s with
        | none => (.errBadDate, posts)
        | some dt =>
          let newPost : Post :=
            { id := get_next_id posts
              title := (d.title.getD .jnull)
              content := (d.content.getD .jnull)
              author := (d.author.getD .jnull)
              date := dt }
          (.created newPost, posts ++ [newPost])
      | _ => (.crash, posts)

/-- Response of the delete_post handler. -/
inductive DelResp where
  | deleted : DelResp
  | notFound : DelResp
deriving DecidableEq, Repr

/-- Embedding of delete_post: the handler rebinds POSTS to the list
without the posts carrying the id and reports 404 exactly when the
length did not shrink. -/
def delete_post (posts : List Post) (pid : Nat) : DelResp × List Post :=
  if (posts.filter (fun p => p.id != pid)).length < posts.length then
    (.deleted, posts.filter (fun p => p.id != pid))
  else (.notFound, posts.filter (fun p => p.id != pid))

/-- Response of the update_post handler; crash stands for the
unhandled TypeError raised by the membership test on a None body or
by strptime on a non-string date value. -/
inductive UpdResp where
  | ok : Post → UpdResp
  | errNotFound : UpdResp
  | errBadDate : UpdResp
  | crash : UpdResp
deriving DecidableEq, Repr

/-- The in-place writes update_post performs for the three text keys,
in source order: each supplied key overwrites the field with the raw
payload value. -/
def applyTextFields (p : Post) (d : Payload) : Post :=
  let p1 := match d.title with
    | some v => { p with title := v }
    | none => p
  let p2 := match d.content with
    | some v => { p1 with content := v }
    | none => p1
  match d.author with
  | some v => { p2 with author := v }
  | none => p2

/-- Replaces the first post carrying the id, the effect of the
in-place mutation of the dict found by the lookup loop. -/
def replaceFirst : List Post → Nat → Post → List Post
  | [], _, _ => []
  | p :: ps, pid, q => if p.id == pid then q :: ps else p :: replaceFirst ps pid q

/-- Embedding of update_post.  The lookup loop runs first, so an
unknown id yields 404 before the body is touched.  A found post then
receives the supplied text values in place; only afterwards is the
date key examined, so a 400 on a bad date (and equally the TypeError
crash on a null body reaching the membership test, or a non-string
date value reaching strptime) leaves those writes in the store. -/
def update_post (posts : List Post) (pid : Nat) (data : Option Payload) : UpdResp × List Post :=
  match posts.find? (fun p => p.id == pid) with
  | none => (.errNotFound, posts)
  | some post =>
    match data with
    | none => (.crash, posts)
    | some d =>
      let post3 := applyTextFields post d
      match d.date with
      | none => (.ok post3, replaceFirst posts pid post3)
      | some (.jstr s) =>
        match parse_date_string s with
        | none => (.errBadDate, replaceFirst posts pid post3)
        | some dt =>
          (.ok { post3 with date := dt }, replaceFirst posts pid { post3 with date := dt })
      | some _ => (.crash, replaceFirst posts pid post3)

/-- The value at a text sort or search key of a post. -/
def textField (f : String) (p : Post) : JVal :=
  if f == "title" then p.title
  else if f == "content" then p.content
  else p.author

/-- Response of the get_posts handler; crash stands for the TypeError
Python raises when the sort comparison meets a non-string value in a
text field. -/
inductive ListResp where
  | ok : List Post → ListResp
  | errSortField : ListResp
  | errSortDirection : ListResp
  | crash : ListResp
deriving DecidableEq, Repr

/-- Embedding of get_posts.  The handler copies POSTS, returns the
copy unsorted when the sort parameter is absent or empty, validates
the field and then the direction, and sorts the copy with the stable
list sort; reverse=True is the stable sort under the flipped
comparison.  The global store is returned unchanged on every path
because only the copy is sorted.  Sorting a text field with a
non-string value present raises a TypeError, modelled as crash. -/
def get_posts (posts : List Post) (sortBy direction : Option String) : ListResp × List Post :=
  match sortBy with
  | none => (.ok posts, posts)
  | some s =>
    if s.isEmpty then (.ok posts, posts)
    else if !(s == "title" || s == "content" || s == "author" || s == "date") then
      (.errSortField, posts)
    else if !(direction == some "asc" || direction == some "desc") then
      (.errSortDirection, posts)
    else
      let rev := direction == some "desc"
      if s == "date" then
        (.ok (posts.mergeSort (fun a b =>
          if rev then dateLe b.date a.date else dateLe a.date b.date)), posts)
      else if posts.all (fun p => (textField s p).isStr) then
        (.ok (posts.mergeSort (fun a b =>
          if rev then strLe ((textField s b).asStr) ((textField s a).asStr)
          else strLe ((textField s a).asStr) ((textField s b).asStr))), posts)
      else (.crash, posts)

/-- True when the three text fields of the post are strings, so that
lowercasing and comparison are defined on them. -/
def postFieldsAreStrings (p : Post) : Bool :=
  p.title.isStr && p.content.isStr && p.author.isStr

/-- The per-post filter of the search loop, after the handler has
lowercased the three text criteria: a truthy criterion must be a
substring of the lowercased stored field, and a truthy date criterion
must equal the formatted stored date exactly. -/
def postMatches (st sc sa sd : String) (p : Post) : Bool :=
  (!st.isEmpty && subStr st (pyLower p.title.asStr))
    || (!sc.isEmpty && subStr sc (pyLower p.content.asStr))
    || (!sa.isEmpty && subStr sa (pyLower p.author.asStr))
    || (!sd.isEmpty && sd == formatDate p.date)

/-- Response of the search_posts handler; crash stands for the
AttributeError or TypeError raised when lower is taken on a
non-string stored field. -/
inductive SearchResp where
  | ok : List Post → SearchResp
  | crash : SearchResp
deriving DecidableEq, Repr

/-- Embedding of search_posts: the handler lowercases the three text
criteria once, then walks the store in order appending each post that
some truthy criterion matches. -/
def search_posts (posts : List Post) (qt qc qa qd : String) : SearchResp × List Post :=
  if posts.all postFieldsAreStrings then
    (.ok (posts.filter (postMatches (pyLower qt) (pyLower qc) (pyLower qa) qd)), posts)
  else (.crash, posts)

/-! Helper lemmas about the embedded operations. -/

theorem charAsk_inj {c d : Char} (h : c.toNat = d.toNat) : c = d :=
  Char.eq_of_val_eq (UInt32.toNat.inj h)

theorem charsLe_trans : ∀ a b c : List Char,
    charsLe a b = true → charsLe b c = true → charsLe a c = true := by
  intro a
  induction a with
  | nil => intro b c h1 h2; simp [charsLe]
  | cons x xs ih =>
    intro b c h1 h2
    cases b with
    | nil => simp [charsLe] at h1
    | cons y ys =>
      cases c with
      | nil => simp [charsLe] at h2
      | cons z zs =>
        simp [charsLe] at h1 h2 ⊢
        rcases h1 with h1 | ⟨h1e, h1r⟩
        · rcases h2 with h2 | ⟨h2e, h2r⟩
          · exact Or.inl (Nat.lt_trans h1 h2)
          · exact Or.inl (by omega)
        · rcases h2 with h2 | ⟨h2e, h2r⟩
          · exact Or.inl (by omega)
          · exact Or.inr ⟨by omega, ih ys zs h1r h2r⟩

theorem charsLe_total : ∀ a b : List Char, (charsLe a b || charsLe b a) = true := by
  intro a
  induction a with
  | nil => intro b; simp [charsLe]
  | cons x xs ih =>
    intro b
    cases b with
    | nil => simp [charsLe]
    | cons y ys =>
      simp [charsLe]
      rcases Nat.lt_trichotomy x.toNat y.toNat with h | h | h
      · exact Or.inl (Or.inl h)
      · rcases (by simpa using ih ys) with hr | hr
        · exact Or.inl (Or.inr ⟨h, hr⟩)
        · exact Or.inr (Or.inr ⟨h.symm, hr⟩)
      · exact Or.inr (Or.inl h)

theorem charsLe_antisymm : ∀ a b : List Char,
    charsLe a b = true → charsLe b a = true → a = b := by
  intro a
  induction a with
  | nil =>
    intro b h1 h2
    cases b with
    | nil => rfl
    | cons y ys => simp [charsLe] at h2
  | cons x xs ih =>
    intro b h1 h2
    cases b with
    | nil => simp [charsLe] at h1
    | cons y ys =>
      simp [charsLe] at h1 h2
      rcases h1 with h1 | ⟨h1e, h1r⟩
      · rcases h2 with h2 | ⟨h2e, h2r⟩
        · omega
        · omega
      · rcases h2 with h2 | ⟨h2e, h2r⟩
        · omega
        · exact by rw [charAsk_inj h1e, ih ys h1r h2r]

theorem strLe_trans {a b c : String} (h1 : strLe a b = true) (h2 : strLe b c = true) :
    strLe a c = true :=
  charsLe_trans a.data b.data c.data h1 h2

theorem strLe_total (a b : String) : (strLe a b || strLe b a) = true :=
  charsLe_total a.data b.data

theorem strLe_antisymm {a b : String} (h1 : strLe a b = true) (h2 : strLe b a = true) :
    a = b :=
  String.ext (charsLe_antisymm a.data b.data h1 h2)

theorem dateLe_trans {a b c : Date} (h1 : dateLe a b = true) (h2 : dateLe b c = true) :
    dateLe a c = true := by
  simp [dateLe] at h1 h2 ⊢
  omega

theorem dateLe_total (a b : Date) : (dateLe a b || dateLe b a) = true := by
  simp [dateLe]
  omega

theorem dateLe_antisymm {a b : Date} (h1 : dateLe a b = true) (h2 : dateLe b a = true) :
    a = b := by
  rcases a with ⟨ay, am, ad⟩
  rcases b with ⟨by1, bm, bd⟩
  simp [dateLe] at h1 h2 ⊢
  omega

theorem le_foldl_max (l : List Nat) (a : Nat) : a ≤ l.foldl Nat.max a := by
  induction l generalizing a with
  | nil => simp
  | cons x xs ih => exact le_trans (Nat.le_max_left a x) (ih (Nat.max a x))

theorem mem_le_foldl_max (l : List Nat) (a x : Nat) (hx : x ∈ l) :
    x ≤ l.foldl Nat.max a := by
  induction l generalizing a with
  | nil => cases hx
  | cons y ys ih =>
    rcases List.mem_cons.mp hx with h | h
    · subst h; exact le_trans (Nat.le_max_right a x) (le_foldl_max ys _)
    · exact ih _ h

theorem get_next_id_eq (posts : List Post) :
    get_next_id posts = (posts.map Post.id).foldl Nat.max 0 + 1 := by
  cases posts <;> simp [get_next_id]

theorem find?_replaceFirst (posts : List Post) (pid : Nat) (q post : Post)
    (hq : (q.id == pid) = true)
    (hfind : posts.find? (fun p => p.id == pid) = some post) :
    (replaceFirst posts pid q).find? (fun p => p.id == pid) = some q := by
  induction posts with
  | nil => simp [List.find?] at hfind
  | cons p ps ih =>
    by_cases hp : (p.id == pid) = true
    · simp [replaceFirst, hp, List.find?_cons_of_pos, hq]
    · have hp2 : (p.id == pid) = false := by simpa using hp
      simp only [List.find?, hp2] at hfind
      simp [replaceFirst, hp2, List.find?]
      exact ih hfind

theorem mem_replaceFirst_of_ne (posts : List Post) (pid : Nat) (q r : Post)
    (hr : r ∈ posts) (hne : r.id ≠ pid) : r ∈ replaceFirst posts pid q := by
  induction posts with
  | nil => cases hr
  | cons p ps ih =>
    rcases List.mem_cons.mp hr with h | h
    · subst h
      have hp : (r.id == pid) = false := by simpa using hne
      simp [replaceFirst, hp]
    · by_cases hp : (p.id == pid) = true
      · simp [replaceFirst, hp]
        exact Or.inr h
      · simp [replaceFirst, hp]
        exact Or.inr (ih h)

theorem length_replaceFirst (posts : List Post) (pid : Nat) (q : Post) :
    (replaceFirst posts pid q).length = posts.length := by
  induction posts with
  | nil => rfl
  | cons p ps ih =>
    by_cases hp : (p.id == pid) = true
    · simp [replaceFirst, hp]
    · simp [replaceFirst, hp, ih]

theorem applyTextFields_id (p : Post) (d : Payload) :
    (applyTextFields p d).id = p.id := by
  rcases d with ⟨t, c, a, dt, e⟩
  cases t <;> cases c <;> cases a <;> rfl

theorem applyTextFields_date (p : Post) (d : Payload) :
    (applyTextFields p d).date = p.date := by
  rcases d with ⟨t, c, a, dt, e⟩
  cases t <;> cases c <;> cases a <;> rfl

theorem applyTextFields_title_none (p : Post) (d : Payload) (h : d.title = none) :
    (applyTextFields p d).title = p.title := by
  rcases d with ⟨t, c, a, dt, e⟩
  cases h
  cases c <;> cases a <;> rfl

theorem applyTextFields_title_some (p : Post) (d : Payload) (v : JVal)
    (h : d.title = some v) : (applyTextFields p d).title = v := by
  rcases d with ⟨t, c, a, dt, e⟩
  cases h
  cases c <;> cases a <;> rfl

theorem applyTextFields_content_none (p : Post) (d : Payload) (h : d.content = none) :
    (applyTextFields p d).content = p.content := by
  rcases d with ⟨t, c, a, dt, e⟩
  cases h
  cases t <;> cases a <;> rfl

theorem applyTextFields_content_some (p : Post) (d : Payload) (v : JVal)
    (h : d.content = some v) : (applyTextFields p d).content = v := by
  rcases d with ⟨t, c, a, dt, e⟩
  cases h
  cases t <;> cases a <;> rfl

theorem applyTextFields_author_none (p : Post) (d : Payload) (h : d.author = none) :
    (applyTextFields p d).author = p.author := by
  rcases d with ⟨t, c, a, dt, e⟩
  cases h
  cases t <;> cases c <;> rfl

theorem applyTextFields_author_some (p : Post) (d : Payload) (v : JVal)
    (h : d.author = some v) : (applyTextFields p d).author = v := by
  rcases d with ⟨t, c, a, dt, e⟩
  cases h
  cases t <;> cases c <;> rfl

theorem pyLower_beq_empty (s : String) : (pyLower s == "") = (s == "") := by
  rcases s with ⟨l⟩
  cases l with
  | nil => rfl
  | cons c cs =>
    have h1 : (pyLower ⟨c :: cs⟩ == "") = false := by
      simp [pyLower, String.ext_iff]
    have h2 : ((⟨c :: cs⟩ : String) == "") = false := by
      simp [String.ext_iff]
    rw [h1, h2]

theorem getTruthy_getD (o : Option JVal) (h : getTruthy o = true) :
    (o.getD .jnull).truthy = true := by
  cases o with
  | none => simp [getTruthy] at h
  | some v => simpa [getTruthy] using h

theorem missingOf_isEmpty_iff (d : Payload) :
    missingOf d = [] ↔
      (getTruthy d.title = true ∧ getTruthy d.content = true ∧
        getTruthy d.author = true ∧ getTruthy d.date = true) := by
  by_cases t1 : getTruthy d.title = true <;>
    by_cases t2 : getTruthy d.content = true <;>
      by_cases t3 : getTruthy d.author = true <;>
        by_cases t4 : getTruthy d.date = true <;>
          simp [missingOf, t1, t2, t3, t4]

/-! Generic lemmas about the stable list sort used by get_posts. -/

theorem mergeSort_tie_filter (le : Post → Post → Bool)
    (htrans : ∀ a b c, le a b = true → le b c = true → le a c = true)
    (htotal : ∀ a b, (le a b || le b a) = true)
    (l : List Post) (p : Post) :
    (l.mergeSort le).filter (fun q => le q p && le p q) =
      l.filter (fun q => le q p && le p q) := by
  have hpw : (l.filter (fun q => le q p && le p q)).Pairwise (fun a b => le a b = true) := by
    apply List.pairwise_of_forall_mem_list
    intro a ha b hb
    have ha2 := (List.mem_filter.mp ha).2
    have hb2 := (List.mem_filter.mp hb).2
    simp only [Bool.and_eq_true] at ha2 hb2
    exact htrans a p b ha2.1 hb2.2
  have hsub : (l.filter (fun q => le q p && le p q)).Sublist (l.mergeSort le) :=
    List.sublist_mergeSort htrans htotal hpw (List.filter_sublist l)
  have hsub2 := List.Sublist.filter (fun q => le q p && le p q) hsub
  have hself : (l.filter (fun q => le q p && le p q)).filter
      (fun q => le q p && le p q) = l.filter (fun q => le q p && le p q) :=
    List.filter_eq_self.mpr (fun a ha => (List.mem_filter.mp ha).2)
  rw [hself] at hsub2
  have hlen : ((l.mergeSort le).filter (fun q => le q p && le p q)).length =
      (l.filter (fun q => le q p && le p q)).length :=
    ((List.mergeSort_perm l le).filter _).length_eq
  exact (hsub2.eq_of_length hlen.symm).symm

theorem mergeSort_flip_reverse (le : Post → Post → Bool)
    (htrans : ∀ a b c, le a b = true → le b c = true → le a c = true)
    (htotal : ∀ a b, (le a b || le b a) = true)
    (l : List Post)
    (hnt : l.Pairwise (fun a b => ¬(le a b = true ∧ le b a = true))) :
    l.mergeSort (fun a b => le b a) = (l.mergeSort le).reverse := by
  have hsym : ∀ {x y : Post}, (fun a b => ¬(le a b = true ∧ le b a = true)) x y →
      (fun a b => ¬(le a b = true ∧ le b a = true)) y x := by
    intro x y h hc
    exact h ⟨hc.2, hc.1⟩
  haveI : IsAntisymm Post (fun a b => le b a = true ∧ le a b = false) :=
    ⟨fun a b h1 h2 => absurd h1.1 (by simp [h2.2])⟩
  have hpermd : (l.mergeSort (fun a b => le b a)).Perm l :=
    List.mergeSort_perm l _
  have hperma : (l.mergeSort le).Perm l := List.mergeSort_perm l le
  have hntd : (l.mergeSort (fun a b => le b a)).Pairwise
      (fun a b => ¬(le a b = true ∧ le b a = true)) :=
    ((hpermd.pairwise_iff hsym).mpr hnt)
  have hnta : (l.mergeSort le).Pairwise
      (fun a b => ¬(le a b = true ∧ le b a = true)) :=
    ((hperma.pairwise_iff hsym).mpr hnt)
  have hsortd : (l.mergeSort (fun a b => le b a)).Pairwise
      (fun a b => (fun a b => le b a) a b = true) :=
    List.sorted_mergeSort (fun a b c h1 h2 => htrans c b a h2 h1)
      (fun a b => by rw [Bool.or_comm]; exact htotal a b) l
  have hsorta : (l.mergeSort le).Pairwise (fun a b => le a b = true) :=
    List.sorted_mergeSort htrans htotal l
  apply List.eq_of_perm_of_sorted
    (r := fun a b => le b a = true ∧ le a b = false)
  · exact (hpermd.trans hperma.symm).trans (List.reverse_perm _).symm
  · exact (hsortd.and hntd).imp (by
      intro a b h
      refine ⟨h.1, ?_⟩
      by_cases hab : le a b = true
      · exact absurd ⟨hab, h.1⟩ h.2
      · simpa using hab)
  · rw [List.Sorted, List.pairwise_reverse]
    exact (hsorta.and hnta).imp (by
      intro a b h
      refine ⟨h.1, ?_⟩
      by_cases hba : le b a = true
      · exact absurd ⟨h.1, hba⟩ h.2
      · simpa using hba)

/-- The comparison get_posts sorts by: the natural ordering of the
value stored at the field, chronological for the date field and
lexicographic code-point order for the text fields. -/
def postKeyLe (f : String) (a b : Post) : Bool :=
  if f == "date" then dateLe a.date b.date
  else strLe ((textField f a).asStr) ((textField f b).asStr)

/-- Two posts tie on a field when the comparison holds both ways. -/
def postTie (f : String) (a b : Post) : Bool :=
  postKeyLe f a b && postKeyLe f b a

theorem postKeyLe_trans (f : String) :
    ∀ a b c, postKeyLe f a b = true → postKeyLe f b c = true →
      postKeyLe f a c = true := by
  intro a b c h1 h2
  by_cases hd : (f == "date") = true
  · simp only [postKeyLe, if_pos hd] at h1 h2 ⊢
    exact dateLe_trans h1 h2
  · simp only [postKeyLe, if_neg hd] at h1 h2 ⊢
    exact strLe_trans h1 h2

theorem postKeyLe_total (f : String) :
    ∀ a b, (postKeyLe f a b || postKeyLe f b a) = true := by
  intro a b
  by_cases hd : (f == "date") = true
  · simp only [postKeyLe, if_pos hd]
    exact dateLe_total _ _
  · simp only [postKeyLe, if_neg hd]
    exact strLe_total _ _

theorem all_textField_of_wf (posts : List Post) (f : String)
    (hwf : posts.all postFieldsAreStrings = true) :
    posts.all (fun p => (textField f p).isStr) = true := by
  rw [List.all_eq_true] at hwf ⊢
  intro p hp
  have h := hwf p hp
  simp only [postFieldsAreStrings, Bool.and_eq_true] at h
  by_cases h1 : (f == "title") = true
  · simpa [textField, h1] using h.1.1
  · by_cases h2 : (f == "content") = true
    · simpa [textField, h1, h2] using h.1.2
    · simpa [textField, h1, h2] using h.2

theorem get_posts_sort_eq (posts : List Post) (f : String)
    (hf : f ∈ (["title", "content", "author", "date"] : List String))
    (hwf : posts.all postFieldsAreStrings = true) (dir : String)
    (hdir : dir = "asc" ∨ dir = "desc") :
    get_posts posts (some f) (some dir) =
      (.ok (posts.mergeSort (fun a b =>
        if dir == "desc" then postKeyLe f b a else postKeyLe f a b)), posts) := by
  have hall := all_textField_of_wf posts f hwf
  have hf2 : f = "title" ∨ f = "content" ∨ f = "author" ∨ f = "date" := by
    simpa using hf
  rcases hf2 with rfl | rfl | rfl | rfl <;> rcases hdir with rfl | rfl <;>
    simp [get_posts, postKeyLe, hall] <;>
      exact fun h => absurd h (by decide)

/-! Claim theorems. -/

/-- C10: the list endpoint (with or without sort parameters, valid or
invalid) and the search endpoint leave the store exactly as it was:
the second component of every result is the input store, because
get_posts sorts a copy of POSTS and search_posts only reads it. -/
theorem readsNeverMutateStore (posts : List Post) (sortBy direction : Option String)
    (qt qc qa qd : String) :
    (get_posts posts sortBy direction).2 = posts ∧
    (search_posts posts qt qc qa qd).2 = posts := by
  constructor
  · unfold get_posts
    cases sortBy with
    | none => rfl
    | some s =>
      dsimp only
      repeat' split
      all_goals rfl
  · unfold search_posts
    split <;> rfl

/-- C9: a list request with no sort field (absent or empty) returns the
input order with no validation error whatever the direction is; a
non-empty field outside title, content, author, date fails with the
invalid-sort-field error; a valid field with a direction that is not
asc or desc (including an absent direction) fails with the
invalid-sort-direction error.  The store is unchanged in every case. -/
theorem sortParamValidation (posts : List Post) (direction : Option String) :
    get_posts posts none direction = (.ok posts, posts) ∧
    get_posts posts (some "") direction = (.ok posts, posts) ∧
    (∀ s : String, s ≠ "" →
      s ∉ (["title", "content", "author", "date"] : List String) →
      get_posts posts (some s) direction = (.errSortField, posts)) ∧
    (∀ s : String, s ∈ (["title", "content", "author", "date"] : List String) →
      direction ≠ some "asc" → direction ≠ some "desc" →
      get_posts posts (some s) direction = (.errSortDirection, posts)) := by
  have he : ("" : String).isEmpty = true := rfl
  refine ⟨rfl, by simp [get_posts, he], ?_, ?_⟩
  · intro s hne hnin
    have h0 : s.isEmpty = false := by
      cases hh : s.isEmpty
      · rfl
      · exact absurd ((String.isEmpty_iff s).mp hh) hne
    simp only [List.mem_cons, List.not_mem_nil, or_false, not_or] at hnin
    obtain ⟨n1, n2, n3, n4⟩ := hnin
    simp [get_posts, h0, beq_iff_eq, n1, n2, n3, n4]
  · intro s hs hna hnd
    have ha : (direction == some "asc") = false := beq_eq_false_iff_ne.mpr hna
    have hb : (direction == some "desc") = false := beq_eq_false_iff_ne.mpr hnd
    have hf2 : s = "title" ∨ s = "content" ∨ s = "author" ∨ s = "date" := by
      simpa using hs
    rcases hf2 with rfl | rfl | rfl | rfl <;>
      simp [get_posts, ha, hb] <;> decide

theorem sortParamValidation_witness :
    get_posts initialPosts none none = (.ok initialPosts, initialPosts) ∧
    get_posts initialPosts (some "bogus") (some "asc") = (.errSortField, initialPosts) ∧
    get_posts initialPosts (some "title") none = (.errSortDirection, initialPosts) :=
  ⟨(sortParamValidation initialPosts none).1,
   (sortParamValidation initialPosts (some "asc")).2.2.1 "bogus" (by decide) (by decide),
   (sortParamValidation initialPosts none).2.2.2 "title" (by decide) (by decide) (by decide)⟩

theorem delete_notFound_iff (posts : List Post) (pid : Nat) :
    (delete_post posts pid).1 = .notFound ↔ ∀ p ∈ posts, p.id ≠ pid := by
  unfold delete_post
  by_cases h : (posts.filter (fun p => p.id != pid)).length < posts.length
  · simp only [if_pos h]
    constructor
    · intro hc; cases hc
    · intro hall
      exfalso
      rw [List.length_filter_lt_length_iff_exists] at h
      obtain ⟨x, hx, hxp⟩ := h
      exact hall x hx (by simpa using hxp)
  · simp only [if_neg h]
    constructor
    · intro _ p hp hpe
      apply h
      rw [List.length_filter_lt_length_iff_exists]
      exact ⟨p, hp, by simpa using hpe⟩
    · intro _; trivial

theorem delete_store_of_notFound (posts : List Post) (pid : Nat)
    (h : ∀ p ∈ posts, p.id ≠ pid) : (delete_post posts pid).2 = posts := by
  unfold delete_post
  have hself : posts.filter (fun p => p.id != pid) = posts :=
    List.filter_eq_self.mpr (fun a ha => by simpa using h a ha)
  rw [hself]
  split <;> rfl

theorem update_notFound_iff (posts : List Post) (pid : Nat) (data : Option Payload) :
    (update_post posts pid data).1 = .errNotFound ↔ ∀ p ∈ posts, p.id ≠ pid := by
  unfold update_post
  cases hf : posts.find? (fun p => p.id == pid) with
  | none =>
    simp only []
    constructor
    · intro _
      intro p hp hpe
      have := List.find?_eq_none.mp hf p hp
      simp [hpe] at this
    · intro _; trivial
  | some post =>
    have hmem := List.mem_of_find?_eq_some hf
    have hpe : post.id = pid := by simpa using List.find?_some hf
    constructor
    · intro hc
      exfalso
      revert hc
      cases data with
      | none => simp
      | some d =>
        cases hd : d.date with
        | none => simp [hd]
        | some v =>
          cases v with
          | jstr s =>
            cases hp : parse_date_string s <;> simp [hd, hp]
          | jnull => simp [hd]
          | jnum n => simp [hd]
          | jbool b => simp [hd]
    · intro hall
      exact absurd hpe (hall post hmem)

/-- C8: update and delete report the not-found error exactly when no
stored post carries the requested id, and on that failure the store is
unchanged; deleting an existing id succeeds and immediately deleting
the same id again reports not-found. -/
theorem missingIdBehaviour (posts : List Post) (pid : Nat) (data : Option Payload) :
    ((update_post posts pid data).1 = .errNotFound ↔ ∀ p ∈ posts, p.id ≠ pid) ∧
    ((update_post posts pid data).1 = .errNotFound →
      (update_post posts pid data).2 = posts) ∧
    ((delete_post posts pid).1 = .notFound ↔ ∀ p ∈ posts, p.id ≠ pid) ∧
    ((delete_post posts pid).1 = .notFound → (delete_post posts pid).2 = posts) ∧
    ((∃ p ∈ posts, p.id = pid) →
      (delete_post posts pid).1 = .deleted ∧
      (delete_post (delete_post posts pid).2 pid).1 = .notFound) := by
  refine ⟨update_notFound_iff posts pid data, ?_, delete_notFound_iff posts pid, ?_, ?_⟩
  · intro h
    have hall := (update_notFound_iff posts pid data).mp h
    have hf : posts.find? (fun p => p.id == pid) = none :=
      List.find?_eq_none.mpr (fun x hx => by simpa using hall x hx)
    unfold update_post
    rw [hf]
  · intro h
    exact delete_store_of_notFound posts pid ((delete_notFound_iff posts pid).mp h)
  · intro ⟨p, hp, hpe⟩
    constructor
    · unfold delete_post
      have hlt : (posts.filter (fun q => q.id != pid)).length < posts.length := by
        rw [List.length_filter_lt_length_iff_exists]
        exact ⟨p, hp, by simpa using hpe⟩
      rw [if_pos hlt]
    · rw [delete_notFound_iff]
      intro q hq
      have : (delete_post posts pid).2 = posts.filter (fun r => r.id != pid) := by
        unfold delete_post
        split <;> rfl

      rw [this] at hq
      simpa using (List.mem_filter.mp hq).2

theorem missingIdBehaviour_witness :
    (delete_post initialPosts 3).1 = .deleted ∧
    (delete_post (delete_post initialPosts 3).2 3).1 = .notFound ∧
    (update_post initialPosts 99 none).1 = .errNotFound ∧
    (update_post initialPosts 99 none).2 = initialPosts := by
  have h1 := (missingIdBehaviour initialPosts 3 none).2.2.2.2
    ⟨⟨3, .jstr "Third Post", .jstr "Another interesting post content.",
      .jstr "John Doe", ⟨2023, 6, 9⟩⟩, by decide, rfl⟩
  have h2 := (missingIdBehaviour initialPosts 99 none).1.mpr (by decide)
  have h3 := (missingIdBehaviour initialPosts 99 none).2.1 h2
  exact ⟨h1.1, h1.2, h2, h3⟩


/-- C4: a successful create allocates the id one above the maximum id
still present (one on the empty store), appends the new post, and the
returned id is strictly greater than every live id, so id uniqueness
is preserved. -/
theorem newIdAllocation (posts : List Post) (data : Option Payload) (p : Post)
    (res : List Post) (h : add_post posts data = (.created p, res)) :
    p.id = (posts.map Post.id).foldl Nat.max 0 + 1 ∧
    (∀ q ∈ posts, q.id < p.id) ∧
    (posts = [] → p.id = 1) ∧
    res = posts ++ [p] ∧
    ((posts.map Post.id).Nodup → (res.map Post.id).Nodup) := by
  cases data with
  | none => simp [add_post] at h
  | some d =>
    simp only [add_post] at h
    split at h
    · simp at h
    · split at h
      · simp at h
      · split at h
        · split at h
          · simp at h
          · rw [Prod.mk.injEq] at h
            obtain ⟨hp, hres⟩ := h
            rw [AddResp.created.injEq] at hp
            subst hres
            have hid : p.id = get_next_id posts := by rw [← hp]
            have hmax : ∀ q ∈ posts, q.id < p.id := by
              intro q hq
              rw [hid, get_next_id_eq]
              have := mem_le_foldl_max (posts.map Post.id) 0 q.id
                (List.mem_map_of_mem Post.id hq)
              omega
            refine ⟨by rw [hid, get_next_id_eq], hmax, ?_, by rw [hp], ?_⟩
            · intro he; subst he; rw [hid]; rfl
            · intro hnd
              have hnotin : p.id ∉ posts.map Post.id := by
                intro hin
                obtain ⟨q, hq, hqe⟩ := List.mem_map.mp hin
                exact absurd hqe (Nat.ne_of_lt (hmax q hq))
              rw [hp]
              simp only [List.map_append, List.map_cons, List.map_nil]
              rw [List.nodup_append]
              exact ⟨hnd, List.nodup_singleton _, by
                intro a ha hb
                rw [List.mem_singleton] at hb
                subst hb
                exact hnotin ha⟩
        · simp at h

theorem newIdAllocation_witness :
    (⟨1, .jstr "T", .jstr "C", .jstr "A", ⟨2023, 6, 7⟩⟩ : Post).id =
      (([] : List Post).map Post.id).foldl Nat.max 0 + 1 ∧
    (([] : List Post) = [] →
      (⟨1, .jstr "T", .jstr "C", .jstr "A", ⟨2023, 6, 7⟩⟩ : Post).id = 1) := by
  have h := newIdAllocation []
    (some { title := some (.jstr "T"), content := some (.jstr "C"),
            author := some (.jstr "A"), date := some (.jstr "2023-06-07") })
    ⟨1, .jstr "T", .jstr "C", .jstr "A", ⟨2023, 6, 7⟩⟩
    [⟨1, .jstr "T", .jstr "C", .jstr "A", ⟨2023, 6, 7⟩⟩]
    (by decide)
  exact ⟨h.1, h.2.2.1⟩

/-- A stored post has its three text fields non-empty in the Python
sense (truthy); the date field is a parsed date by construction. -/
def postNonEmpty (p : Post) : Bool :=
  p.title.truthy && p.content.truthy && p.author.truthy

/-- C2 counterexample: updating post 1 of the seed store with an empty
title string succeeds and leaves a stored post with an empty title, so
update does not preserve the non-empty-fields invariant and can null
out a previously-set field. -/
theorem storedFieldsNonEmpty_cex :
    (initialPosts.all postNonEmpty) = true ∧
    (update_post initialPosts 1 (some { title := some (.jstr "") })).1 =
      .ok ⟨1, .jstr "", .jstr "This is the first post.", .jstr "John Doe", ⟨2023, 6, 7⟩⟩ ∧
    ((update_post initialPosts 1 (some { title := some (.jstr "") })).2.all
      postNonEmpty) = false := by
  decide

/-- C2 (amended): the non-empty-fields invariant holds of the initial
store and is preserved by create and by delete, but not by update,
which writes any supplied value unchecked (see the counterexample). -/
theorem storedFieldsNonEmpty (posts : List Post) :
    (∀ p ∈ initialPosts, postNonEmpty p = true) ∧
    (∀ data r res, add_post posts data = (r, res) →
      (∀ p ∈ posts, postNonEmpty p = true) →
      ∀ p ∈ res, postNonEmpty p = true) ∧
    (∀ pid : Nat, (∀ p ∈ posts, postNonEmpty p = true) →
      ∀ p ∈ (delete_post posts pid).2, postNonEmpty p = true) := by
  refine ⟨by decide, ?_, ?_⟩
  · intro data r res h hinv
    cases data with
    | none =>
      simp only [add_post] at h
      cases h; exact hinv
    | some d =>
      simp only [add_post] at h
      split at h
      · cases h; exact hinv
      · split at h
        · cases h; exact hinv
        · rename_i hmiss
          have hm : missingOf d = [] := by
            rcases hh : missingOf d with _ | ⟨x, xs⟩
            · rfl
            · rw [hh] at hmiss
              simp at hmiss
          have ht := (missingOf_isEmpty_iff d).mp hm
          split at h
          · split at h
            · cases h; exact hinv
            · cases h
              intro p hp
              rcases List.mem_append.mp hp with hp | hp
              · exact hinv p hp
              · rw [List.mem_singleton] at hp
                subst hp
                simp only [postNonEmpty, Bool.and_eq_true]
                exact ⟨⟨getTruthy_getD d.title ht.1, getTruthy_getD d.content ht.2.1⟩,
                  getTruthy_getD d.author ht.2.2.1⟩
          · cases h; exact hinv
  · intro pid hinv p hp
    have hd : (delete_post posts pid).2 = posts.filter (fun r => r.id != pid) := by
      unfold delete_post
      split <;> rfl
    rw [hd] at hp
    exact hinv p (List.mem_filter.mp hp).1

theorem storedFieldsNonEmpty_witness :
    postNonEmpty ⟨1, .jstr "First Post", .jstr "This is the first post.",
      .jstr "John Doe", ⟨2023, 6, 7⟩⟩ = true ∧
    postNonEmpty ⟨6, .jstr "T", .jstr "C", .jstr "A", ⟨2023, 6, 7⟩⟩ = true := by
  constructor
  · exact (storedFieldsNonEmpty initialPosts).1 _ (by decide)
  · exact (storedFieldsNonEmpty initialPosts).2.1
      (some { title := some (.jstr "T"), content := some (.jstr "C"),
              author := some (.jstr "A"), date := some (.jstr "2023-06-07") })
      (.created ⟨6, .jstr "T", .jstr "C", .jstr "A", ⟨2023, 6, 7⟩⟩)
      (initialPosts ++ [⟨6, .jstr "T", .jstr "C", .jstr "A", ⟨2023, 6, 7⟩⟩])
      (by decide) (by decide) _ (by decide)

/-- C3 counterexample: an update of an existing post with a null JSON
body reaches the membership test on None and raises an unhandled
TypeError (the crash outcome), so the error branch is not total over
expected misuse. -/
theorem coreNeverCrashes_cex :
    update_post initialPosts 1 none = (.crash, initialPosts) ∧
    (update_post initialPosts 1 (some { date := some .jnull })).1 = .crash := by
  decide

/-- C3 (amended): update returns the not-found error exactly when the
id is unknown and the bad-date error when the date value is a string
that does not parse, but a null body or a non-string date value on an
existing post raises an unhandled TypeError, modelled as crash. -/
theorem coreErrorTaxonomy (posts : List Post) (pid : Nat) :
    (∀ data, (∀ p ∈ posts, p.id ≠ pid) →
      update_post posts pid data = (.errNotFound, posts)) ∧
    (∀ d post s, posts.find? (fun p => p.id == pid) = some post →
      d.date = some (.jstr s) → parse_date_string s = none →
      (update_post posts pid (some d)).1 = .errBadDate) ∧
    (∀ post, posts.find? (fun p => p.id == pid) = some post →
      update_post posts pid none = (.crash, posts)) ∧
    (∀ d post v, posts.find? (fun p => p.id == pid) = some post →
      d.date = some v → v.isStr = false →
      (update_post posts pid (some d)).1 = .crash) := by
  refine ⟨?_, ?_, ?_, ?_⟩
  · intro data hall
    have hf : posts.find? (fun p => p.id == pid) = none :=
      List.find?_eq_none.mpr (fun x hx => by simpa using hall x hx)
    simp [update_post, hf]
  · intro d post s hf hd hp
    simp [update_post, hf, hd, hp]
  · intro post hf
    simp [update_post, hf]
  · intro d post v hf hd hv
    cases v with
    | jstr s => simp [JVal.isStr] at hv
    | jnull => simp [update_post, hf, hd]
    | jnum n => simp [update_post, hf, hd]
    | jbool b => simp [update_post, hf, hd]

theorem coreErrorTaxonomy_witness :
    update_post initialPosts 99 none = (.errNotFound, initialPosts) ∧
    (update_post initialPosts 1 (some { date := some (.jstr "nope") })).1 =
      .errBadDate ∧
    (update_post initialPosts 1 (some { date := some (.jnum 5) })).1 = .crash := by
  refine ⟨(coreErrorTaxonomy initialPosts 99).1 none (by decide),
    (coreErrorTaxonomy initialPosts 1).2.1 _
      ⟨1, .jstr "First Post", .jstr "This is the first post.",
        .jstr "John Doe", ⟨2023, 6, 7⟩⟩ "nope" (by decide) rfl (by decide),
    (coreErrorTaxonomy initialPosts 1).2.2.2 _
      ⟨1, .jstr "First Post", .jstr "This is the first post.",
        .jstr "John Doe", ⟨2023, 6, 7⟩⟩ (.jnum 5) (by decide) rfl (by decide)⟩

/-- C1 counterexample: an update of post 1 that supplies a new title
together with an invalid date string fails with the bad-date error,
yet the store is changed: the title write had already been applied in
place before the date was validated. -/
theorem updateInvalidDateAtomic_cex :
    (update_post initialPosts 1
      (some { title := some (.jstr "Hacked"), date := some (.jstr "not-a-date") })).1 =
        .errBadDate ∧
    (update_post initialPosts 1
      (some { title := some (.jstr "Hacked"), date := some (.jstr "not-a-date") })).2 ≠
        initialPosts ∧
    ((update_post initialPosts 1
      (some { title := some (.jstr "Hacked"), date := some (.jstr "not-a-date") })).2.find?
        (fun p => p.id == 1)).map Post.title = some (.jstr "Hacked") := by
  decide

/-- C1 (amended): an update whose date value is an invalid date string
fails with the bad-date error and leaves the id and the date of the
target post unchanged, and the store keeps its length and all posts
with other ids; but the title, content and author values supplied in
the same payload have already been written to the stored post when the
error is returned (fields not supplied keep their old values). -/
theorem updateInvalidDatePartial (posts : List Post) (pid : Nat) (d : Payload)
    (post : Post) (s : String)
    (hfind : posts.find? (fun p => p.id == pid) = some post)
    (hdate : d.date = some (.jstr s))
    (hparse : parse_date_string s = none) :
    (update_post posts pid (some d)).1 = .errBadDate ∧
    ((update_post posts pid (some d)).2.find? (fun p => p.id == pid)).map Post.id =
      some post.id ∧
    ((update_post posts pid (some d)).2.find? (fun p => p.id == pid)).map Post.date =
      some post.date ∧
    (d.title = none →
      ((update_post posts pid (some d)).2.find? (fun p => p.id == pid)).map Post.title =
        some post.title) ∧
    (∀ v, d.title = some v →
      ((update_post posts pid (some d)).2.find? (fun p => p.id == pid)).map Post.title =
        some v) ∧
    (d.content = none →
      ((update_post posts pid (some d)).2.find? (fun p => p.id == pid)).map Post.content =
        some post.content) ∧
    (∀ v, d.content = some v →
      ((update_post posts pid (some d)).2.find? (fun p => p.id == pid)).map Post.content =
        some v) ∧
    (d.author = none →
      ((update_post posts pid (some d)).2.find? (fun p => p.id == pid)).map Post.author =
        some post.author) ∧
    (∀ v, d.author = some v →
      ((update_post posts pid (some d)).2.find? (fun p => p.id == pid)).map Post.author =
        some v) ∧
    (∀ q ∈ posts, q.id ≠ pid → q ∈ (update_post posts pid (some d)).2) ∧
    (update_post posts pid (some d)).2.length = posts.length := by
  have hres : update_post posts pid (some d) =
      (.errBadDate, replaceFirst posts pid (applyTextFields post d)) := by
    simp [update_post, hfind, hdate, hparse]
  have hq : ((applyTextFields post d).id == pid) = true := by
    rw [applyTextFields_id]
    simpa using List.find?_some hfind
  have hfr : (replaceFirst posts pid (applyTextFields post d)).find?
      (fun p => p.id == pid) = some (applyTextFields post d) :=
    find?_replaceFirst posts pid (applyTextFields post d) post hq hfind
  rw [hres]
  refine ⟨rfl, ?_, ?_, ?_, ?_, ?_, ?_, ?_, ?_, ?_, ?_⟩
  · rw [hfr]; simp [applyTextFields_id]
  · rw [hfr]; simp [applyTextFields_date]
  · intro hn; rw [hfr]; simp [applyTextFields_title_none post d hn]
  · intro v hv; rw [hfr]; simp [applyTextFields_title_some post d v hv]
  · intro hn; rw [hfr]; simp [applyTextFields_content_none post d hn]
  · intro v hv; rw [hfr]; simp [applyTextFields_content_some post d v hv]
  · intro hn; rw [hfr]; simp [applyTextFields_author_none post d hn]
  · intro v hv; rw [hfr]; simp [applyTextFields_author_some post d v hv]
  · intro q hqmem hqne
    exact mem_replaceFirst_of_ne posts pid (applyTextFields post d) q hqmem hqne
  · exact length_replaceFirst posts pid (applyTextFields post d)

theorem updateInvalidDatePartial_witness :
    (update_post initialPosts 1
      (some { title := some (.jstr "Hacked"), date := some (.jstr "not-a-date") })).1 =
        .errBadDate ∧
    ((update_post initialPosts 1
      (some { title := some (.jstr "Hacked"), date := some (.jstr "not-a-date") })).2.find?
        (fun p => p.id == 1)).map Post.date = some (⟨2023, 6, 7⟩ : Date) ∧
    (update_post initialPosts 1
      (some { title := some (.jstr "Hacked"), date := some (.jstr "not-a-date") })).2.length =
      initialPosts.length := by
  have h := updateInvalidDatePartial initialPosts 1
    { title := some (.jstr "Hacked"), date := some (.jstr "not-a-date") }
    ⟨1, .jstr "First Post", .jstr "This is the first post.",
      .jstr "John Doe", ⟨2023, 6, 7⟩⟩ "not-a-date" (by decide) rfl (by decide)
  exact ⟨h.1, h.2.2.1, h.2.2.2.2.2.2.2.2.2.2⟩

theorem mem_missingOf_title (d : Payload) :
    "title" ∈ missingOf d ↔ getTruthy d.title = false := by
  by_cases t1 : getTruthy d.title = true <;>
    by_cases t2 : getTruthy d.content = true <;>
      by_cases t3 : getTruthy d.author = true <;>
        by_cases t4 : getTruthy d.date = true <;>
          simp [missingOf, t1, t2, t3, t4]

theorem mem_missingOf_content (d : Payload) :
    "content" ∈ missingOf d ↔ getTruthy d.content = false := by
  by_cases t1 : getTruthy d.title = true <;>
    by_cases t2 : getTruthy d.content = true <;>
      by_cases t3 : getTruthy d.author = true <;>
        by_cases t4 : getTruthy d.date = true <;>
          simp [missingOf, t1, t2, t3, t4]

theorem mem_missingOf_author (d : Payload) :
    "author" ∈ missingOf d ↔ getTruthy d.author = false := by
  by_cases t1 : getTruthy d.title = true <;>
    by_cases t2 : getTruthy d.content = true <;>
      by_cases t3 : getTruthy d.author = true <;>
        by_cases t4 : getTruthy d.date = true <;>
          simp [missingOf, t1, t2, t3, t4]

theorem mem_missingOf_date (d : Payload) :
    "date" ∈ missingOf d ↔ getTruthy d.date = false := by
  by_cases t1 : getTruthy d.title = true <;>
    by_cases t2 : getTruthy d.content = true <;>
      by_cases t3 : getTruthy d.author = true <;>
        by_cases t4 : getTruthy d.date = true <;>
          simp [missingOf, t1, t2, t3, t4]

theorem mem_missingOf_only (d : Payload) :
    ∀ f ∈ missingOf d,
      f = "title" ∨ f = "content" ∨ f = "author" ∨ f = "date" := by
  intro f hf
  by_cases t1 : getTruthy d.title = true <;>
    by_cases t2 : getTruthy d.content = true <;>
      by_cases t3 : getTruthy d.author = true <;>
        by_cases t4 : getTruthy d.date = true <;>
          simp [missingOf, t1, t2, t3, t4] at hf <;> tauto

/-- C7 counterexample: a create request whose JSON body is the empty
object has all four required fields absent, yet the handler takes the
falsy-body branch and returns the generic body-must-be-JSON error,
which names no fields, instead of a validation error naming the four
missing fields. -/
theorem createValidation_cex :
    add_post initialPosts (some {}) = (.errBodyJson, initialPosts) ∧
    AddResp.errBodyJson ≠ AddResp.errMissing ["title", "content", "author", "date"] := by
  decide

/-- C7 (amended): a create with a missing or absent body, or an empty
payload object, fails with the generic body error naming no fields; a
non-empty payload with some required field absent or falsy fails with
the validation error naming exactly the missing fields in source
order; a payload passing the field check whose date is a string that
does not parse as a date fails with the bad-date error.  The store is
unchanged in every failure case. -/
theorem createValidation (posts : List Post) :
    add_post posts none = (.errBodyJson, posts) ∧
    (∀ d, d.isEmptyDict = true → add_post posts (some d) = (.errBodyJson, posts)) ∧
    (∀ d, d.isEmptyDict = false →
      (getTruthy d.title = false ∨ getTruthy d.content = false ∨
        getTruthy d.author = false ∨ getTruthy d.date = false) →
      add_post posts (some d) = (.errMissing (missingOf d), posts) ∧
      missingOf d ≠ [] ∧
      ("title" ∈ missingOf d ↔ getTruthy d.title = false) ∧
      ("content" ∈ missingOf d ↔ getTruthy d.content = false) ∧
      ("author" ∈ missingOf d ↔ getTruthy d.author = false) ∧
      ("date" ∈ missingOf d ↔ getTruthy d.date = false) ∧
      (∀ f ∈ missingOf d,
        f = "title" ∨ f = "content" ∨ f = "author" ∨ f = "date")) ∧
    (∀ d s, missingOf d = [] → d.date = some (.jstr s) →
      parse_date_string s = none →
      add_post posts (some d) = (.errBadDate, posts)) := by
  refine ⟨rfl, ?_, ?_, ?_⟩
  · intro d h
    simp [add_post, h]
  · intro d he hfal
    have key : missingOf d ≠ [] := by
      rw [Ne, missingOf_isEmpty_iff]
      intro ht
      rcases hfal with hf | hf | hf | hf <;> simp [hf] at ht
    have hne : (missingOf d).isEmpty = false := by
      cases hh : missingOf d with
      | nil => exact absurd hh key
      | cons x xs => simp
    refine ⟨by simp [add_post, he, hne], key, mem_missingOf_title d,
      mem_missingOf_content d, mem_missingOf_author d, mem_missingOf_date d,
      mem_missingOf_only d⟩
  · intro d s hm hd hp
    have he : d.isEmptyDict = false := by
      have ht := (missingOf_isEmpty_iff d).mp hm
      have : d.date.isNone = false := by
        cases hdd : d.date with
        | none => rw [hdd] at ht; simp [getTruthy] at ht
        | some v => rfl
      simp [Payload.isEmptyDict, this]
    simp [add_post, he, hm, hd, hp]

theorem createValidation_witness :
    add_post initialPosts
      (some { title := some (.jstr "T") }) =
      (.errMissing ["content", "author", "date"], initialPosts) ∧
    add_post initialPosts
      (some { title := some (.jstr "T"), content := some (.jstr "C"),
              author := some (.jstr "A"), date := some (.jstr "2023-13-01") }) =
      (.errBadDate, initialPosts) := by
  constructor
  · have h := ((createValidation initialPosts).2.2.1
      { title := some (.jstr "T") } (by decide) (by decide)).1
    rw [h]
    decide
  · exact (createValidation initialPosts).2.2.2
      { title := some (.jstr "T"), content := some (.jstr "C"),
        author := some (.jstr "A"), date := some (.jstr "2023-13-01") }
      "2023-13-01" (by decide) rfl (by decide)

theorem isEmpty_eq_beq (s : String) : s.isEmpty = (s == "") := by
  by_cases h : s = ""
  · subst h; rfl
  · have h1 : s.isEmpty = false := by
      cases hh : s.isEmpty
      · rfl
      · exact absurd ((String.isEmpty_iff s).mp hh) h
    have h2 : (s == "") = false := beq_eq_false_iff_ne.mpr h
    rw [h1, h2]

/-- Spec-side search predicate, written from the claim: a post matches
when some non-empty criterion matches it, the three text criteria by
case-insensitive substring (both sides lowercased) and the date
criterion by exact string equality with the stored date formatted as
YYYY-MM-DD. -/
def specSearchMatch (qt qc qa qd : String) (p : Post) : Bool :=
  (!(qt == "") && subStr (pyLower qt) (pyLower p.title.asStr))
    || (!(qc == "") && subStr (pyLower qc) (pyLower p.content.asStr))
    || (!(qa == "") && subStr (pyLower qa) (pyLower p.author.asStr))
    || (!(qd == "") && qd == formatDate p.date)

theorem postMatches_eq_spec (qt qc qa qd : String) (p : Post) :
    postMatches (pyLower qt) (pyLower qc) (pyLower qa) qd p =
      specSearchMatch qt qc qa qd p := by
  simp only [postMatches, specSearchMatch, isEmpty_eq_beq, pyLower_beq_empty]

/-- C5: on a store of well-formed posts, search returns exactly the
posts matched by some non-empty criterion, as a filter of the input
sequence (hence in input order and each occurrence at most once),
with text criteria matched by case-insensitive substring and the date
criterion by exact equality against the formatted stored date; with
all criteria empty the result is empty even on a non-empty store. -/
theorem searchSemantics (posts : List Post) (qt qc qa qd : String)
    (hwf : posts.all postFieldsAreStrings = true) :
    search_posts posts qt qc qa qd =
      (.ok (posts.filter (specSearchMatch qt qc qa qd)), posts) ∧
    (posts.filter (specSearchMatch qt qc qa qd)).Sublist posts ∧
    (qt = "" → qc = "" → qa = "" → qd = "" →
      search_posts posts qt qc qa qd = (.ok [], posts)) := by
  have hfe : posts.filter (postMatches (pyLower qt) (pyLower qc) (pyLower qa) qd) =
      posts.filter (specSearchMatch qt qc qa qd) :=
    List.filter_congr (fun x _ => postMatches_eq_spec qt qc qa qd x)
  refine ⟨by simp [search_posts, hwf, hfe], List.filter_sublist posts, ?_⟩
  intro h1 h2 h3 h4
  subst h1; subst h2; subst h3; subst h4
  have hf0 : posts.filter (specSearchMatch "" "" "" "") = [] := by
    rw [List.filter_congr (q := fun _ => false)
      (fun x _ => by simp [specSearchMatch])]
    exact List.filter_false posts
  simp [search_posts, hwf, hfe, hf0]

theorem searchSemantics_witness :
    search_posts initialPosts "second" "" "" "" =
      (.ok [⟨2, .jstr "Second Post", .jstr "This is the second post.",
        .jstr "Jane Smith", ⟨2023, 6, 8⟩⟩], initialPosts) ∧
    search_posts initialPosts "" "" "" "" = (.ok [], initialPosts) := by
  have h := searchSemantics initialPosts "second" "" "" "" (by decide)
  have h0 := searchSemantics initialPosts "" "" "" "" (by decide)
  refine ⟨?_, h0.2.2 rfl rfl rfl rfl⟩
  rw [h.1]
  decide

/-- C6: for a valid sort field on a store of well-formed posts, the
ascending result is a permutation of the input sorted by the natural
ordering of the field (lexicographic code-point order for text
fields, chronological for the date field) with every tie class kept
in input order (stability), the descending result is the same
permutation sorted by the flipped comparison with the same stability,
and when no two posts tie on the field the descending result is
exactly the reverse of the ascending result. -/
theorem sortSemantics (posts : List Post) (f : String)
    (hf : f ∈ (["title", "content", "author", "date"] : List String))
    (hwf : posts.all postFieldsAreStrings = true)
    (la ld : List Post)
    (hla : (get_posts posts (some f) (some "asc")).1 = .ok la)
    (hld : (get_posts posts (some f) (some "desc")).1 = .ok ld) :
    la.Perm posts ∧
    la.Pairwise (fun a b => postKeyLe f a b = true) ∧
    (∀ p : Post, la.filter (fun q => postTie f q p) =
      posts.filter (fun q => postTie f q p)) ∧
    ld.Perm posts ∧
    ld.Pairwise (fun a b => postKeyLe f b a = true) ∧
    (∀ p : Post, ld.filter (fun q => postTie f q p) =
      posts.filter (fun q => postTie f q p)) ∧
    (posts.Pairwise (fun a b => postTie f a b = false) → ld = la.reverse) := by
  have T := postKeyLe_trans f
  have O := postKeyLe_total f
  have TD : ∀ a b c, postKeyLe f b a = true → postKeyLe f c b = true →
      postKeyLe f c a = true := fun a b c h1 h2 => T c b a h2 h1
  have OD : ∀ a b : Post, (postKeyLe f b a || postKeyLe f a b) = true :=
    fun a b => by rw [Bool.or_comm]; exact O a b
  rw [get_posts_sort_eq posts f hf hwf "asc" (Or.inl rfl)] at hla
  rw [get_posts_sort_eq posts f hf hwf "desc" (Or.inr rfl)] at hld
  simp only [ListResp.ok.injEq] at hla hld
  have hae : ("asc" == "desc") = false := by decide
  have hde : ("desc" == "desc") = true := by decide
  rw [hae] at hla
  rw [hde] at hld
  simp only [if_false, if_true, Bool.false_eq_true] at hla hld
  subst hla
  subst hld
  have hswap : ∀ (l : List Post) (p : Post),
      l.filter (fun q => postKeyLe f q p && postKeyLe f p q) =
        l.filter (fun q => postTie f q p) :=
    fun l p => List.filter_congr (fun x _ => by simp [postTie])
  have hswap2 : ∀ (l : List Post) (p : Post),
      l.filter (fun q => postKeyLe f p q && postKeyLe f q p) =
        l.filter (fun q => postTie f q p) :=
    fun l p => List.filter_congr (fun x _ => by
      simp [postTie, Bool.and_comm])
  refine ⟨List.mergeSort_perm posts _, List.sorted_mergeSort T O posts, ?_,
    List.mergeSort_perm posts _,
    List.sorted_mergeSort TD OD posts, ?_, ?_⟩
  · intro p
    rw [← hswap, ← hswap posts p]
    exact mergeSort_tie_filter (postKeyLe f) T O posts p
  · intro p
    rw [← hswap2, ← hswap2 posts p]
    exact mergeSort_tie_filter (fun a b => postKeyLe f b a) TD OD posts p
  · intro hnt
    have hnt2 : posts.Pairwise
        (fun a b => ¬(postKeyLe f a b = true ∧ postKeyLe f b a = true)) := by
      refine hnt.imp ?_
      intro a b h hc
      rw [postTie, hc.1, hc.2] at h
      simp at h
    exact mergeSort_flip_reverse (postKeyLe f) T O posts hnt2

/-- A two-post store used to exercise the sort theorem. -/
def pApple : Post := ⟨1, .jstr "Apple", .jstr "ca", .jstr "aa", ⟨2023, 6, 7⟩⟩

/-- Second post of the two-post store used to exercise the sort
theorem. -/
def pBanana : Post := ⟨2, .jstr "Banana", .jstr "cb", .jstr "ab", ⟨2023, 6, 8⟩⟩

theorem sortSemantics_witness :
    ([pApple, pBanana] : List Post).Perm [pBanana, pApple] ∧
    ([pApple, pBanana] : List Post).Pairwise
      (fun a b => postKeyLe "title" a b = true) ∧
    ([pBanana, pApple] : List Post) = ([pApple, pBanana] : List Post).reverse := by
  have hla : (get_posts [pBanana, pApple] (some "title") (some "asc")).1 =
      .ok [pApple, pBanana] := by
    rw [get_posts_sort_eq [pBanana, pApple] "title" (by decide) (by decide)
      "asc" (Or.inl rfl)]
    simp [List.mergeSort, List.merge]
    decide
  have hld : (get_posts [pBanana, pApple] (some "title") (some "desc")).1 =
      .ok [pBanana, pApple] := by
    rw [get_posts_sort_eq [pBanana, pApple] "title" (by decide) (by decide)
      "desc" (Or.inr rfl)]
    simp [List.mergeSort, List.merge]
    decide
  have h := sortSemantics [pBanana, pApple] "title" (by decide) (by decide)
    [pApple, pBanana] [pBanana, pApple] hla hld
  exact ⟨h.1, h.2.1, h.2.2.2.2.2.2 (by decide)⟩
